import Mathlib

/-!
Shallow embedding of matchms/similarity/ParentmassMatch.py.

Parent masses are modelled as rationals.  A spectrum is an opaque object
exposing a lookup by key returning an optional scalar.  The Python assert
that aborts a computation on a missing attribute is modelled by
Except String; the numba kernels, which write into a preallocated zero
matrix by index, are modelled by bounds-checked writes returning Option,
so an out-of-bounds write in the symmetric kernel shows up as none.
-/

/-- Spectrum-like object: lookup by key of an optional scalar value. -/
structure Spectrum where
  metadata : String → Option ℚ

/-- Lookup by key, the single capability the core needs from a spectrum. -/
def Spectrum.get (s : Spectrum) (key : String) : Option ℚ :=
  s.metadata key

/-- A match matrix: list of rows of booleans. -/
abbrev Mat := List (List Bool)

/-- Read entry (i, j) of a matrix; none when out of bounds. -/
def matGet (m : Mat) (i j : Nat) : Option Bool :=
  m[i]?.bind fun row => row[j]?

/-- Write entry (i, j) of a matrix; none when out of bounds, as the
indexed store scores[i, j] = v of the numba kernels. -/
def matSet (m : Mat) (i j : Nat) (v : Bool) : Option Mat :=
  match m[i]? with
  | none => none
  | some row => if j < row.length then some (m.set i (row.set j v)) else none

/-- Well-formed N-by-M matrix: N rows, each of length M. -/
def matWF (m : Mat) (N M : Nat) : Prop :=
  m.length = N ∧ ∀ row ∈ m, row.length = M

/-- The ParentmassMatch similarity function: the single configuration
value is the tolerance fixed at construction. -/
structure ParentmassMatch where
  tolerance : ℚ

/-- Class attribute is_commutative of ParentmassMatch. -/
def ParentmassMatch.is_commutative : Bool := true

/-- Method compute_scores: compare the parent masses of two single
spectra; the assert on a missing parent mass becomes an error. -/
def ParentmassMatch.compute_scores (self : ParentmassMatch)
    (reference query : Spectrum) : Except String Bool :=
  match reference.get "parent_mass", query.get "parent_mass" with
  | some pr, some pq => .ok (decide (|pr - pq| ≤ self.tolerance))
  | _, _ => .error "Missing parent mass."

/-- Inner helper collect_parentmasses of compute_scores_parallel:
walk the collection, failing on the first spectrum whose parent mass
is undefined, so no partial array survives a failure. -/
def collect_parentmasses : List Spectrum → Except String (List ℚ)
  | [] => .ok []
  | s :: rest =>
    match s.get "parent_mass" with
    | none => .error "Missing parent mass."
    | some m => (collect_parentmasses rest).map (fun ms => m :: ms)

/-- General numba kernel parentmass_scores: the double loop fills every
entry (i, j) with the tolerance comparison of refs[i] and queries[j]. -/
def parentmass_scores (refs queries : List ℚ) (tolerance : ℚ) : Mat :=
  refs.map fun r => queries.map fun q => decide (|r - q| ≤ tolerance)

/-- Body of the inner loop of parentmass_scores_symmetric:
scores[i, j] = comparison; scores[j, i] = scores[i, j]. -/
def symStep (tolerance : ℚ) (i : Nat) (r : ℚ) (scores : Mat)
    (jq : Nat × ℚ) : Option Mat := do
  let s1 ← matSet scores i jq.1 (decide (|r - jq.2| ≤ tolerance))
  let v ← matGet s1 i jq.1
  matSet s1 jq.1 i v

/-- Symmetric numba kernel parentmass_scores_symmetric: start from a
zero matrix of shape (len refs, len queries); for each i, loop j over
enumerate(queries[i:], start=i) and mirror each comparison. -/
def parentmass_scores_symmetric (refs queries : List ℚ) (tolerance : ℚ) :
    Option Mat :=
  refs.enum.foldlM
    (fun scores ir =>
      ((queries.drop ir.1).enumFrom ir.1).foldlM (symStep tolerance ir.1 ir.2) scores)
    (List.replicate refs.length (List.replicate queries.length false))

/-- Method compute_scores_parallel: extract both parent-mass arrays
(failing fast on a missing one), then run the selected kernel.  The
inner Option records whether the symmetric kernel stayed in bounds. -/
def ParentmassMatch.compute_scores_parallel (self : ParentmassMatch)
    (reference query : List Spectrum) (is_symmetric : Bool) :
    Except String (Option Mat) :=
  match collect_parentmasses reference with
  | .error e => .error e
  | .ok refs =>
    match collect_parentmasses query with
    | .error e => .error e
    | .ok queries =>
      if is_symmetric then
        .ok (parentmass_scores_symmetric refs queries self.tolerance)
      else
        .ok (some (parentmass_scores refs queries self.tolerance))

-- Concrete spectra used in witnesses and counterexamples.

/-- Spectrum with parent mass 100. -/
def spec100 : Spectrum :=
  ⟨fun key => if key = "parent_mass" then some 100 else none⟩

/-- Spectrum with parent mass 100.05. -/
def spec100_05 : Spectrum :=
  ⟨fun key => if key = "parent_mass" then some (100 + 5/100) else none⟩

/-- Spectrum with parent mass 100.2. -/
def spec100_2 : Spectrum :=
  ⟨fun key => if key = "parent_mass" then some (100 + 2/10) else none⟩

/-- Spectrum with no parent mass. -/
def specBad : Spectrum :=
  ⟨fun _ => none⟩

example : (ParentmassMatch.mk (1/10)).compute_scores spec100 spec100_05 = .ok true := by
  with_unfolding_all rfl

example : (ParentmassMatch.mk (1/10)).compute_scores spec100 spec100_2 = .ok false := by
  with_unfolding_all rfl

example : parentmass_scores_symmetric [500, 502, 600] [500, 502, 600] 3 =
    some [[true, true, false], [true, true, false], [false, false, true]] := by
  with_unfolding_all rfl

example : parentmass_scores_symmetric [] [1] (1/10) = some [] := by
  with_unfolding_all rfl

example : parentmass_scores_symmetric [1] [1, 1] (1/10) = none := by
  with_unfolding_all rfl


-- Infrastructure: well-formedness and entrywise characterisation of the
-- bounds-checked matrix reads and writes.

lemma matWF_zeros (N M : Nat) :
    matWF (List.replicate N (List.replicate M false)) N M := by
  refine ⟨List.length_replicate N _, ?_⟩
  intro row hrow
  rw [List.eq_of_mem_replicate hrow]
  exact List.length_replicate M false

lemma matWF_row {m : Mat} {N M : Nat} (h : matWF m N M) {p : Nat} {row : List Bool}
    (hrow : m[p]? = some row) : row.length = M := by
  obtain ⟨hlt, he⟩ := List.getElem?_eq_some.mp hrow
  exact he ▸ h.2 _ (List.getElem_mem hlt)

lemma matGet_none_left {m : Mat} {N M : Nat} (h : matWF m N M) {p : Nat} (q : Nat)
    (hp : N ≤ p) : matGet m p q = none := by
  have hnone : m[p]? = none := List.getElem?_eq_none (le_of_eq_of_le h.1 hp)
  simp [matGet, hnone]

lemma matGet_none_right {m : Mat} {N M : Nat} (h : matWF m N M) (p : Nat) {q : Nat}
    (hq : M ≤ q) : matGet m p q = none := by
  unfold matGet
  cases hrow : m[p]? with
  | none => rfl
  | some row =>
    have hnone : row[q]? = none :=
      List.getElem?_eq_none (le_of_eq_of_le (matWF_row h hrow) hq)
    simp [hnone]

lemma matSet_eq_some {m : Mat} {N M : Nat} (h : matWF m N M) {i j : Nat}
    (hi : i < N) (hj : j < M) (v : Bool) :
    ∃ m2, matSet m i j v = some m2 ∧ matWF m2 N M ∧
      ∀ p q, matGet m2 p q = if p = i ∧ q = j then some v else matGet m p q := by
  have hiL : i < m.length := h.1 ▸ hi
  obtain ⟨row, hrow⟩ : ∃ row, m[i]? = some row :=
    ⟨m[i], List.getElem?_eq_getElem hiL⟩
  have hrlen : row.length = M := matWF_row h hrow
  have hjr : j < row.length := hrlen ▸ hj
  refine ⟨m.set i (row.set j v), ?_, ⟨?_, ?_⟩, ?_⟩
  · simp [matSet, hrow, hjr]
  · rw [List.length_set]; exact h.1
  · intro r hr
    rcases List.mem_or_eq_of_mem_set hr with h1 | h2
    · exact h.2 r h1
    · rw [h2, List.length_set]; exact hrlen
  · intro p q
    unfold matGet
    by_cases hp : p = i
    · subst hp
      rw [List.getElem?_set_eq_of_lt _ hiL, hrow]
      by_cases hq : q = j
      · subst hq
        simp [List.getElem?_set_eq_of_lt _ hjr]
      · have hne : j ≠ q := Ne.symm hq
        simp [List.getElem?_set_ne hne, hq]
    · have hne : i ≠ p := Ne.symm hp
      rw [List.getElem?_set_ne hne]
      simp [hp]

lemma symStep_eq_some {scores : Mat} {N M : Nat} (h : matWF scores N M) {i j : Nat}
    (hiN : i < N) (hiM : i < M) (hjN : j < N) (hjM : j < M) (t r q : ℚ) :
    ∃ m2, symStep t i r scores (j, q) = some m2 ∧ matWF m2 N M ∧
      ∀ p p2, matGet m2 p p2 =
        if (p = i ∧ p2 = j) ∨ (p = j ∧ p2 = i) then some (decide (|r - q| ≤ t))
        else matGet scores p p2 := by
  obtain ⟨s1, hs1, hwf1, hchar1⟩ := matSet_eq_some h hiN hjM (decide (|r - q| ≤ t))
  obtain ⟨s2, hs2, hwf2, hchar2⟩ := matSet_eq_some hwf1 hjN hiM (decide (|r - q| ≤ t))
  have hget : matGet s1 i j = some (decide (|r - q| ≤ t)) := by rw [hchar1]; simp
  refine ⟨s2, ?_, hwf2, ?_⟩
  · simp [symStep, hs1, hget, hs2]
  · intro p p2
    rw [hchar2, hchar1]
    by_cases h1 : p = i ∧ p2 = j <;> by_cases h2 : p = j ∧ p2 = i <;> simp [h1, h2]

lemma symStep_eq_none {scores : Mat} {N M : Nat} (h : matWF scores N M) {i j : Nat}
    (hiN : i < N) (hjM : j < M) (hjN : N ≤ j) (t r q : ℚ) :
    symStep t i r scores (j, q) = none := by
  obtain ⟨s1, hs1, hwf1, hchar1⟩ := matSet_eq_some h hiN hjM (decide (|r - q| ≤ t))
  have hget : matGet s1 i j = some (decide (|r - q| ≤ t)) := by rw [hchar1]; simp
  have hnone : matSet s1 j i (decide (|r - q| ≤ t)) = none := by
    have hj2 : s1[j]? = none := List.getElem?_eq_none (le_of_eq_of_le hwf1.1 hjN)
    simp [matSet, hj2]
  simp [symStep, hs1, hget, hnone]

lemma inner_fold_past_end {qs : List ℚ} {M : Nat} (hM : M = qs.length) (t r : ℚ)
    (i j : Nat) (hjM : M ≤ j) (scores : Mat) :
    ((qs.drop j).enumFrom j).foldlM (symStep t i r) scores = some scores := by
  have hdrop : qs.drop j = [] := List.drop_eq_nil_of_le (by omega)
  rw [hdrop]
  rfl

lemma inner_fold_characterisation {qs : List ℚ} {N M : Nat} (hM : M = qs.length)
    (hMN : M ≤ N) (t r : ℚ) {i : Nat} (hiN : i < N) :
    ∀ (k j : Nat), M - j ≤ k → i ≤ j →
    ∀ scores : Mat, matWF scores N M →
    ∃ m, ((qs.drop j).enumFrom j).foldlM (symStep t i r) scores = some m ∧
      matWF m N M ∧
      ∀ p p2, matGet m p p2 =
        if p = i ∧ j ≤ p2 ∧ p2 < M then some (decide (|r - qs.getD p2 0| ≤ t))
        else if p2 = i ∧ j ≤ p ∧ p < M then some (decide (|r - qs.getD p 0| ≤ t))
        else matGet scores p p2 := by
  intro k
  induction k with
  | zero =>
    intro j hk hij scores hwf
    refine ⟨scores, inner_fold_past_end hM t r i j (by omega) scores, hwf, ?_⟩
    intro p p2
    rw [if_neg (by omega : ¬(p = i ∧ j ≤ p2 ∧ p2 < M)),
      if_neg (by omega : ¬(p2 = i ∧ j ≤ p ∧ p < M))]
  | succ k ih =>
    intro j hk hij scores hwf
    by_cases hjM : M ≤ j
    · refine ⟨scores, inner_fold_past_end hM t r i j hjM scores, hwf, ?_⟩
      intro p p2
      rw [if_neg (by omega : ¬(p = i ∧ j ≤ p2 ∧ p2 < M)),
        if_neg (by omega : ¬(p2 = i ∧ j ≤ p ∧ p < M))]
    · have hjM2 : j < M := by omega
      have hjq : j < qs.length := by omega
      have hdrop : qs.drop j = qs[j] :: qs.drop (j + 1) := List.drop_eq_getElem_cons hjq
      rw [hdrop, List.enumFrom_cons, List.foldlM_cons]
      obtain ⟨s2, hs2, hwf2, hchar2⟩ :=
        symStep_eq_some hwf hiN (by omega) (by omega) hjM2 t r qs[j]
      obtain ⟨m, hm, hwfm, hcharm⟩ := ih (j + 1) (by omega) (by omega) s2 hwf2
      refine ⟨m, ?_, hwfm, ?_⟩
      · rw [hs2]
        simpa using hm
      · intro p p2
        have hval : qs.getD j 0 = qs[j] := by
          rw [List.getD_eq_getElem?_getD, List.getElem?_eq_getElem hjq]
          rfl
        rw [hcharm p p2, hchar2 p p2]
        by_cases hA : p = i ∧ j ≤ p2 ∧ p2 < M
        · rw [if_pos hA]
          by_cases hA2 : j + 1 ≤ p2
          · rw [if_pos (by omega : p = i ∧ j + 1 ≤ p2 ∧ p2 < M)]
          · have hp2j : p2 = j := by omega
            rw [if_neg (by omega : ¬(p = i ∧ j + 1 ≤ p2 ∧ p2 < M)),
              if_neg (by omega : ¬(p2 = i ∧ j + 1 ≤ p ∧ p < M)),
              if_pos (Or.inl ⟨hA.1, hp2j⟩), hp2j, hval]
        · by_cases hB : p2 = i ∧ j ≤ p ∧ p < M
          · rw [if_neg hA, if_pos hB]
            by_cases hB2 : j + 1 ≤ p
            · rw [if_neg (by omega : ¬(p = i ∧ j + 1 ≤ p2 ∧ p2 < M)),
                if_pos (by omega : p2 = i ∧ j + 1 ≤ p ∧ p < M)]
            · have hpj : p = j := by omega
              rw [if_neg (by omega : ¬(p = i ∧ j + 1 ≤ p2 ∧ p2 < M)),
                if_neg (by omega : ¬(p2 = i ∧ j + 1 ≤ p ∧ p < M)),
                if_pos (Or.inr ⟨hpj, hB.1⟩), hpj, hval]
          · rw [if_neg hA, if_neg hB,
              if_neg (by omega : ¬(p = i ∧ j + 1 ≤ p2 ∧ p2 < M)),
              if_neg (by omega : ¬(p2 = i ∧ j + 1 ≤ p ∧ p < M)),
              if_neg (by omega : ¬((p = i ∧ p2 = j) ∨ (p = j ∧ p2 = i)))]

lemma outer_fold_characterisation {refs qs : List ℚ} {N M : Nat}
    (hN : N = refs.length) (hM : M = qs.length) (hMN : M ≤ N) (t : ℚ) :
    ∀ (k i : Nat), N - i ≤ k →
    ∀ scores : Mat, matWF scores N M →
    ∃ m, ((refs.drop i).enumFrom i).foldlM
        (fun sc ir => ((qs.drop ir.1).enumFrom ir.1).foldlM (symStep t ir.1 ir.2) sc)
        scores = some m ∧
      matWF m N M ∧
      ∀ p p2, matGet m p p2 =
        if i ≤ min p p2 ∧ max p p2 < M then
          some (decide (|refs.getD (min p p2) 0 - qs.getD (max p p2) 0| ≤ t))
        else matGet scores p p2 := by
  intro k
  induction k with
  | zero =>
    intro i hk scores hwf
    have hdrop : refs.drop i = [] := List.drop_eq_nil_of_le (by omega)
    refine ⟨scores, by rw [hdrop]; rfl, hwf, ?_⟩
    intro p p2
    rw [if_neg (by omega : ¬(i ≤ min p p2 ∧ max p p2 < M))]
  | succ k ih =>
    intro i hk scores hwf
    by_cases hiN : N ≤ i
    · have hdrop : refs.drop i = [] := List.drop_eq_nil_of_le (by omega)
      refine ⟨scores, by rw [hdrop]; rfl, hwf, ?_⟩
      intro p p2
      rw [if_neg (by omega : ¬(i ≤ min p p2 ∧ max p p2 < M))]
    · have hiN2 : i < N := by omega
      have hir : i < refs.length := by omega
      have hdrop : refs.drop i = refs[i] :: refs.drop (i + 1) :=
        List.drop_eq_getElem_cons hir
      rw [hdrop, List.enumFrom_cons, List.foldlM_cons]
      obtain ⟨m1, hm1, hwf1, hchar1⟩ :=
        inner_fold_characterisation hM hMN t refs[i] hiN2 M i (by omega) le_rfl
          scores hwf
      obtain ⟨m, hm, hwfm, hcharm⟩ := ih (i + 1) (by omega) m1 hwf1
      refine ⟨m, ?_, hwfm, ?_⟩
      · have hstep :
            ((qs.drop (i, refs[i]).1).enumFrom (i, refs[i]).1).foldlM
              (symStep t (i, refs[i]).1 (i, refs[i]).2) scores = some m1 := hm1
        rw [hstep]
        simpa using hm
      · intro p p2
        have hvalr : refs.getD i 0 = refs[i] := by
          rw [List.getD_eq_getElem?_getD, List.getElem?_eq_getElem hir]
          rfl
        rw [hcharm p p2, hchar1 p p2]
        by_cases hD : i ≤ min p p2 ∧ max p p2 < M
        · rw [if_pos hD]
          by_cases hD2 : i + 1 ≤ min p p2
          · rw [if_pos (by omega : i + 1 ≤ min p p2 ∧ max p p2 < M)]
          · by_cases hpi : p = i
            · have hmin : min p p2 = i := by omega
              have hmax : max p p2 = p2 := by omega
              rw [if_neg (by omega : ¬(i + 1 ≤ min p p2 ∧ max p p2 < M)),
                if_pos (by omega : p = i ∧ i ≤ p2 ∧ p2 < M), hmin, hmax, hvalr]
            · have hp2i : p2 = i := by omega
              have hmin : min p p2 = i := by omega
              have hmax : max p p2 = p := by omega
              rw [if_neg (by omega : ¬(i + 1 ≤ min p p2 ∧ max p p2 < M)),
                if_neg (by omega : ¬(p = i ∧ i ≤ p2 ∧ p2 < M)),
                if_pos (by omega : p2 = i ∧ i ≤ p ∧ p < M), hmin, hmax, hvalr]
        · rw [if_neg hD,
            if_neg (by omega : ¬(i + 1 ≤ min p p2 ∧ max p p2 < M)),
            if_neg (by omega : ¬(p = i ∧ i ≤ p2 ∧ p2 < M)),
            if_neg (by omega : ¬(p2 = i ∧ i ≤ p ∧ p < M))]

lemma parentmass_scores_symmetric_eq_some (refs qs : List ℚ) (t : ℚ)
    (hMN : qs.length ≤ refs.length) :
    ∃ m, parentmass_scores_symmetric refs qs t = some m ∧
      matWF m refs.length qs.length ∧
      ∀ p p2, p < refs.length → p2 < qs.length →
        matGet m p p2 =
          if max p p2 < qs.length then
            some (decide (|refs.getD (min p p2) 0 - qs.getD (max p p2) 0| ≤ t))
          else some false := by
  obtain ⟨m, hm, hwf, hchar⟩ :=
    outer_fold_characterisation rfl rfl hMN t refs.length 0 (by omega)
      (List.replicate refs.length (List.replicate qs.length false))
      (matWF_zeros _ _)
  refine ⟨m, ?_, hwf, ?_⟩
  · have henum : refs.enum = (refs.drop 0).enumFrom 0 := by
      rw [List.drop_zero, List.enum_eq_enumFrom]
    unfold parentmass_scores_symmetric
    rw [henum]
    exact hm
  · intro p p2 hp hp2
    rw [hchar p p2]
    by_cases hmax : max p p2 < qs.length
    · rw [if_pos ⟨Nat.zero_le _, hmax⟩, if_pos hmax]
    · rw [if_neg (by omega : ¬((0:Nat) ≤ min p p2 ∧ max p p2 < qs.length)),
        if_neg hmax]
      simp [matGet, List.getElem?_replicate, hp, hp2]

lemma inner_fold_fails_at_end {qs : List ℚ} {N M : Nat} (hM : M = qs.length)
    (hNM : N < M) (hN0 : 0 < N) (t r : ℚ) (scores : Mat) (hwf : matWF scores N M) :
    ((qs.drop N).enumFrom N).foldlM (symStep t 0 r) scores = none := by
  have hNq : N < qs.length := by omega
  have hdrop : qs.drop N = qs[N] :: qs.drop (N + 1) := List.drop_eq_getElem_cons hNq
  rw [hdrop, List.enumFrom_cons, List.foldlM_cons]
  have hnone := symStep_eq_none hwf hN0 (by omega) le_rfl t r qs[N]
  rw [hnone]
  rfl

lemma inner_fold_none {qs : List ℚ} {N M : Nat} (hM : M = qs.length) (hNM : N < M)
    (hN0 : 0 < N) (t r : ℚ) :
    ∀ (k j : Nat), j ≤ N → N - j ≤ k →
    ∀ scores : Mat, matWF scores N M →
    ((qs.drop j).enumFrom j).foldlM (symStep t 0 r) scores = none := by
  intro k
  induction k with
  | zero =>
    intro j hjN hk scores hwf
    have hj : j = N := by omega
    subst hj
    exact inner_fold_fails_at_end hM hNM hN0 t r scores hwf
  | succ k ih =>
    intro j hjN hk scores hwf
    by_cases hj : j = N
    · subst hj
      exact inner_fold_fails_at_end hM hNM hN0 t r scores hwf
    · have hjN2 : j < N := by omega
      have hjq : j < qs.length := by omega
      have hdrop : qs.drop j = qs[j] :: qs.drop (j + 1) := List.drop_eq_getElem_cons hjq
      rw [hdrop, List.enumFrom_cons, List.foldlM_cons]
      obtain ⟨s2, hs2, hwf2, -⟩ :=
        symStep_eq_some hwf hN0 (by omega) hjN2 (by omega) t r qs[j]
      rw [hs2]
      simpa using ih (j + 1) (by omega) (by omega) s2 hwf2

lemma parentmass_scores_symmetric_eq_none {refs qs : List ℚ} (t : ℚ)
    (hNM : refs.length < qs.length) (hN0 : 0 < refs.length) :
    parentmass_scores_symmetric refs qs t = none := by
  have hdrop : refs.drop 0 = refs[0] :: refs.drop 1 := List.drop_eq_getElem_cons hN0
  have henum : refs.enum = (refs.drop 0).enumFrom 0 := by
    rw [List.drop_zero, List.enum_eq_enumFrom]
  unfold parentmass_scores_symmetric
  rw [henum, hdrop, List.enumFrom_cons, List.foldlM_cons]
  have hnone : ((qs.drop (0:Nat)).enumFrom 0).foldlM (symStep t 0 refs[0])
      (List.replicate refs.length (List.replicate qs.length false)) = none :=
    inner_fold_none rfl hNM hN0 t refs[0] refs.length 0 (by omega) (by omega) _
      (matWF_zeros _ _)
  have hstep : List.foldlM (symStep t (0, refs[0]).1 (0, refs[0]).2)
      (List.replicate refs.length (List.replicate qs.length false))
      (List.enumFrom (0, refs[0]).1 (List.drop (0, refs[0]).1 qs)) = none := hnone
  rw [hstep]
  rfl

lemma mat_ext {m1 m2 : Mat} {N M : Nat} (h1 : matWF m1 N M) (h2 : matWF m2 N M)
    (h : ∀ p q, matGet m1 p q = matGet m2 p q) : m1 = m2 := by
  apply List.ext_get?_iff.mpr
  intro n
  rw [List.get?_eq_getElem?, List.get?_eq_getElem?]
  by_cases hn : n < N
  · obtain ⟨row1, hrow1⟩ : ∃ row, m1[n]? = some row :=
      ⟨_, List.getElem?_eq_getElem (h1.1 ▸ hn)⟩
    obtain ⟨row2, hrow2⟩ : ∃ row, m2[n]? = some row :=
      ⟨_, List.getElem?_eq_getElem (h2.1 ▸ hn)⟩
    rw [hrow1, hrow2]
    have hrows : row1 = row2 := by
      apply List.ext_get?_iff.mpr
      intro q
      have hq := h n q
      unfold matGet at hq
      rw [hrow1, hrow2] at hq
      rw [List.get?_eq_getElem?, List.get?_eq_getElem?]
      simpa using hq
    rw [hrows]
  · rw [List.getElem?_eq_none (by rw [h1.1]; omega),
      List.getElem?_eq_none (by rw [h2.1]; omega)]

-- The general kernel: shape and entries.

lemma parentmass_scores_WF (refs qs : List ℚ) (t : ℚ) :
    matWF (parentmass_scores refs qs t) refs.length qs.length := by
  constructor
  · simp [parentmass_scores]
  · intro row hrow
    simp only [parentmass_scores, List.mem_map] at hrow
    obtain ⟨r, -, hrow⟩ := hrow
    rw [← hrow]
    simp

lemma matGet_parentmass_scores (refs qs : List ℚ) (t : ℚ) (p q : Nat) :
    matGet (parentmass_scores refs qs t) p q =
      refs[p]?.bind fun r => qs[q]?.map fun x => decide (|r - x| ≤ t) := by
  unfold matGet parentmass_scores
  rw [List.getElem?_map]
  cases refs[p]? with
  | none => rfl
  | some r => simp [List.getElem?_map]

lemma matGet_parentmass_scores_of_lt {refs qs : List ℚ} {p q : Nat}
    (hp : p < refs.length) (hq : q < qs.length) (t : ℚ) :
    matGet (parentmass_scores refs qs t) p q =
      some (decide (|refs.getD p 0 - qs.getD q 0| ≤ t)) := by
  rw [matGet_parentmass_scores, List.getElem?_eq_getElem hp, List.getElem?_eq_getElem hq]
  simp [List.getD_eq_getElem?_getD, List.getElem?_eq_getElem, hp, hq]

-- On a self-comparison the symmetric kernel computes exactly the general
-- kernel matrix.

lemma sym_kernel_eq_general (a : List ℚ) (t : ℚ) :
    parentmass_scores_symmetric a a t = some (parentmass_scores a a t) := by
  obtain ⟨m, hm, hwf, hchar⟩ :=
    parentmass_scores_symmetric_eq_some a a t le_rfl
  rw [hm]
  congr 1
  apply mat_ext hwf (parentmass_scores_WF a a t)
  intro p q
  by_cases hp : p < a.length
  · by_cases hq : q < a.length
    · rw [hchar p q hp hq, if_pos (by omega), matGet_parentmass_scores_of_lt hp hq]
      rcases le_total p q with hpq | hpq
      · rw [min_eq_left hpq, max_eq_right hpq]
      · rw [min_eq_right hpq, max_eq_left hpq, abs_sub_comm]
    · rw [matGet_none_right hwf p (by omega),
        matGet_none_right (parentmass_scores_WF a a t) p (by omega)]
  · rw [matGet_none_left hwf q (by omega),
      matGet_none_left (parentmass_scores_WF a a t) q (by omega)]

-- The attribute extractor: fail-fast behaviour and the extracted array.

lemma collect_parentmasses_error {l : List Spectrum}
    (h : ∃ s ∈ l, s.get "parent_mass" = none) :
    collect_parentmasses l = .error "Missing parent mass." := by
  induction l with
  | nil => simp at h
  | cons s rest ih =>
    obtain ⟨s2, hs2, hnone⟩ := h
    rcases List.mem_cons.mp hs2 with h1 | h2
    · subst h1
      simp [collect_parentmasses, hnone]
    · unfold collect_parentmasses
      cases hg : s.get "parent_mass" with
      | none => rfl
      | some v =>
        rw [ih ⟨s2, h2, hnone⟩]
        rfl

lemma collect_parentmasses_ok {l : List Spectrum}
    (h : ∀ s ∈ l, s.get "parent_mass" ≠ none) :
    ∃ pm : List ℚ, collect_parentmasses l = .ok pm ∧ pm.length = l.length ∧
      ∀ k : Nat, pm[k]? = l[k]?.bind fun s => s.get "parent_mass" := by
  induction l with
  | nil => exact ⟨[], rfl, rfl, by intro k; simp⟩
  | cons s rest ih =>
    have hs := h s (by simp)
    cases hg : s.get "parent_mass" with
    | none => exact absurd hg hs
    | some v =>
      obtain ⟨pm, hpm, hlen, hget⟩ := ih (fun s2 hs2 => h s2 (by simp [hs2]))
      refine ⟨v :: pm, ?_, by simp [hlen], ?_⟩
      · unfold collect_parentmasses
        rw [hg, hpm]
        rfl
      · intro k
        cases k with
        | zero => simp [hg]
        | succ k2 => simpa using hget k2

lemma collect_parentmasses_error_eq {l : List Spectrum} {e : String}
    (h : collect_parentmasses l = .error e) : e = "Missing parent mass." := by
  by_cases hmiss : ∃ s ∈ l, s.get "parent_mass" = none
  · have := collect_parentmasses_error hmiss
    rw [this] at h
    exact (Except.error.inj h).symm
  · push_neg at hmiss
    obtain ⟨pm, hpm, -, -⟩ := collect_parentmasses_ok hmiss
    rw [hpm] at h
    exact absurd h (by simp)

-- The facade: routing through the extractor and the kernels.

lemma compute_scores_parallel_ok {self : ParentmassMatch}
    {reference query : List Spectrum} {refs qs : List ℚ}
    (h1 : collect_parentmasses reference = .ok refs)
    (h2 : collect_parentmasses query = .ok qs) (sym : Bool) :
    self.compute_scores_parallel reference query sym =
      .ok (if sym then parentmass_scores_symmetric refs qs self.tolerance
        else some (parentmass_scores refs qs self.tolerance)) := by
  unfold ParentmassMatch.compute_scores_parallel
  rw [h1, h2]
  cases sym <;> rfl

/-- C1: in general mode the batch scorer fills entry (i, j) with exactly the
inclusive comparison of the two parent masses against the tolerance: the entry
is true iff the absolute difference is at most the tolerance, so a difference
equal to the tolerance scores true and a strictly larger one scores false. -/
theorem C1_general_mode_entry (a b : List ℚ) (t : ℚ) (i j : Nat)
    (hi : i < a.length) (hj : j < b.length) :
    matGet (parentmass_scores a b t) i j =
      some (decide (|a.getD i 0 - b.getD j 0| ≤ t)) ∧
    (matGet (parentmass_scores a b t) i j = some true ↔
      |a.getD i 0 - b.getD j 0| ≤ t) := by
  have h := matGet_parentmass_scores_of_lt hi hj t
  refine ⟨h, ?_⟩
  rw [h]
  constructor
  · intro he
    exact of_decide_eq_true (Option.some.inj he)
  · intro hle
    rw [decide_eq_true hle]

/-- C1 witness: masses 100 and 101 with tolerance 1 at entry (0, 0); the
difference equals the tolerance and the entry is true. -/
theorem C1_general_mode_entry_witness :
    ((0:Nat) < [(100:ℚ)].length ∧ (0:Nat) < [(101:ℚ)].length) ∧
    (matGet (parentmass_scores [(100:ℚ)] [(101:ℚ)] 1) 0 0 =
      some (decide (|[(100:ℚ)].getD 0 0 - [(101:ℚ)].getD 0 0| ≤ 1)) ∧
    (matGet (parentmass_scores [(100:ℚ)] [(101:ℚ)] 1) 0 0 = some true ↔
      |[(100:ℚ)].getD 0 0 - [(101:ℚ)].getD 0 0| ≤ 1)) :=
  ⟨⟨by decide, by decide⟩,
   C1_general_mode_entry [100] [101] 1 0 0 (by decide) (by decide)⟩

/-- C2: a batch in which any spectrum of either collection has an undefined
parent mass makes compute_scores_parallel raise the missing-attribute error,
in either mode; no matrix, partial or otherwise, is returned. -/
theorem C2_missing_attribute_fail_fast (self : ParentmassMatch)
    (reference query : List Spectrum) (sym : Bool)
    (h : (∃ s ∈ reference, s.get "parent_mass" = none) ∨
      (∃ s ∈ query, s.get "parent_mass" = none)) :
    self.compute_scores_parallel reference query sym =
      .error "Missing parent mass." := by
  unfold ParentmassMatch.compute_scores_parallel
  rcases h with h | h
  · rw [collect_parentmasses_error h]
  · cases hr : collect_parentmasses reference with
    | error e =>
      have he := collect_parentmasses_error_eq hr
      subst he
      rfl
    | ok refs =>
      rw [collect_parentmasses_error h]

/-- C2 witness: one missing parent mass in the reference collection aborts a
concrete batch of otherwise valid spectra with the missing-attribute error. -/
theorem C2_missing_attribute_fail_fast_witness :
    (∃ s ∈ [specBad, spec100], s.get "parent_mass" = none) ∧
    (ParentmassMatch.mk 1).compute_scores_parallel [specBad, spec100]
      [spec100_2] false = .error "Missing parent mass." :=
  ⟨⟨specBad, by simp, rfl⟩,
   C2_missing_attribute_fail_fast (ParentmassMatch.mk 1) [specBad, spec100]
     [spec100_2] false (Or.inl ⟨specBad, by simp, rfl⟩)⟩

/-- C3: for a collection in which every spectrum has a defined parent mass,
symmetric mode on the collection against itself returns the very matrix that
general mode returns on the same pair of collections. -/
theorem C3_symmetric_mode_equivalence (self : ParentmassMatch)
    (c : List Spectrum) (h : ∀ s ∈ c, s.get "parent_mass" ≠ none) :
    ∃ m : Mat, self.compute_scores_parallel c c true = .ok (some m) ∧
      self.compute_scores_parallel c c false = .ok (some m) := by
  obtain ⟨pm, hpm, -, -⟩ := collect_parentmasses_ok h
  refine ⟨parentmass_scores pm pm self.tolerance, ?_, ?_⟩
  · rw [compute_scores_parallel_ok hpm hpm true]
    rw [if_pos rfl, sym_kernel_eq_general]
  · rw [compute_scores_parallel_ok hpm hpm false]
    rfl

/-- C3 witness: a concrete two-spectrum collection with defined parent masses
on which both modes agree. -/
theorem C3_symmetric_mode_equivalence_witness :
    (∀ s ∈ [spec100, spec100_2], s.get "parent_mass" ≠ none) ∧
    ∃ m : Mat,
      (ParentmassMatch.mk 1).compute_scores_parallel [spec100, spec100_2]
        [spec100, spec100_2] true = .ok (some m) ∧
      (ParentmassMatch.mk 1).compute_scores_parallel [spec100, spec100_2]
        [spec100, spec100_2] false = .ok (some m) :=
  ⟨by simp [spec100, spec100_2, Spectrum.get],
   C3_symmetric_mode_equivalence (ParentmassMatch.mk 1) [spec100, spec100_2]
     (by simp [spec100, spec100_2, Spectrum.get])⟩

/-- C4: with nonnegative tolerance, the symmetric-mode self-comparison matrix
is exactly symmetric and its diagonal is all true, and a single spectrum with
a defined parent mass compared against itself scores true. -/
theorem C4_symmetry_and_reflexivity (self : ParentmassMatch) (c : List Spectrum)
    (h : ∀ s ∈ c, s.get "parent_mass" ≠ none) (ht : 0 ≤ self.tolerance) :
    (∃ m : Mat, self.compute_scores_parallel c c true = .ok (some m) ∧
      (∀ i j : Nat, matGet m i j = matGet m j i) ∧
      ∀ i : Nat, i < c.length → matGet m i i = some true) ∧
    ∀ s : Spectrum, s.get "parent_mass" ≠ none →
      self.compute_scores s s = .ok true := by
  constructor
  · obtain ⟨pm, hpm, hlen, -⟩ := collect_parentmasses_ok h
    refine ⟨parentmass_scores pm pm self.tolerance, ?_, ?_, ?_⟩
    · rw [compute_scores_parallel_ok hpm hpm true, if_pos rfl,
        sym_kernel_eq_general]
    · intro i j
      rw [matGet_parentmass_scores, matGet_parentmass_scores]
      cases hi : pm[i]? <;> cases hj : pm[j]? <;> simp [abs_sub_comm]
    · intro i hi2
      have hipm : i < pm.length := by omega
      rw [matGet_parentmass_scores_of_lt hipm hipm, sub_self, abs_zero,
        decide_eq_true ht]
  · intro s hs
    cases hv : s.get "parent_mass" with
    | none => exact absurd hv hs
    | some v =>
      unfold ParentmassMatch.compute_scores
      rw [hv]
      rw [show (match some v, some v with
        | some pr, some pq => Except.ok (decide (|pr - pq| ≤ self.tolerance))
        | _, _ => Except.error "Missing parent mass."
          : Except String Bool) =
        .ok (decide (|v - v| ≤ self.tolerance)) from rfl]
      rw [sub_self, abs_zero, decide_eq_true ht]

/-- C4 witness: a concrete two-spectrum collection and a concrete spectrum,
with tolerance 1. -/
theorem C4_symmetry_and_reflexivity_witness :
    ((∀ s ∈ [spec100, spec100_2], s.get "parent_mass" ≠ none) ∧
      0 ≤ (ParentmassMatch.mk 1).tolerance) ∧
    ((∃ m : Mat, (ParentmassMatch.mk 1).compute_scores_parallel
        [spec100, spec100_2] [spec100, spec100_2] true = .ok (some m) ∧
      (∀ i j : Nat, matGet m i j = matGet m j i) ∧
      ∀ i : Nat, i < [spec100, spec100_2].length → matGet m i i = some true) ∧
    ∀ s : Spectrum, s.get "parent_mass" ≠ none →
      (ParentmassMatch.mk 1).compute_scores s s = .ok true) :=
  ⟨⟨by simp [spec100, spec100_2, Spectrum.get], by decide⟩,
   C4_symmetry_and_reflexivity (ParentmassMatch.mk 1) [spec100, spec100_2]
     (by simp [spec100, spec100_2, Spectrum.get]) (by decide)⟩

/-- C5: the single-pair predicate is commutative, the class attribute
is_commutative is true, and swapping the reference and query collections in
the batch computation yields exactly the transposed matrix. -/
theorem C5_commutativity_and_transpose (self : ParentmassMatch) :
    (∀ a b : Spectrum, self.compute_scores a b = self.compute_scores b a) ∧
    ParentmassMatch.is_commutative = true ∧
    ∀ reference query : List Spectrum,
      (∀ s ∈ reference, s.get "parent_mass" ≠ none) →
      (∀ s ∈ query, s.get "parent_mass" ≠ none) →
      ∃ m m2 : Mat,
        self.compute_scores_parallel reference query false = .ok (some m) ∧
        self.compute_scores_parallel query reference false = .ok (some m2) ∧
        matWF m reference.length query.length ∧
        matWF m2 query.length reference.length ∧
        ∀ i j : Nat, matGet m2 j i = matGet m i j := by
  refine ⟨?_, rfl, ?_⟩
  · intro a b
    unfold ParentmassMatch.compute_scores
    cases ha : a.get "parent_mass" <;> cases hb : b.get "parent_mass" <;>
      simp [abs_sub_comm]
  · intro reference query h1 h2
    obtain ⟨pmr, hpmr, hlenr, -⟩ := collect_parentmasses_ok h1
    obtain ⟨pmq, hpmq, hlenq, -⟩ := collect_parentmasses_ok h2
    refine ⟨parentmass_scores pmr pmq self.tolerance,
      parentmass_scores pmq pmr self.tolerance, ?_, ?_, ?_, ?_, ?_⟩
    · rw [compute_scores_parallel_ok hpmr hpmq false]
      rfl
    · rw [compute_scores_parallel_ok hpmq hpmr false]
      rfl
    · rw [← hlenr, ← hlenq]
      exact parentmass_scores_WF pmr pmq self.tolerance
    · rw [← hlenr, ← hlenq]
      exact parentmass_scores_WF pmq pmr self.tolerance
    · intro i j
      rw [matGet_parentmass_scores, matGet_parentmass_scores]
      cases hi : pmr[i]? <;> cases hj : pmq[j]? <;> simp [abs_sub_comm]

/-- C5 witness: concrete spectra for the single-pair commutativity and
concrete singleton collections for the transposition. -/
theorem C5_commutativity_and_transpose_witness :
    ((ParentmassMatch.mk 1).compute_scores spec100 spec100_2 =
      (ParentmassMatch.mk 1).compute_scores spec100_2 spec100) ∧
    ∃ m m2 : Mat,
      (ParentmassMatch.mk 1).compute_scores_parallel [spec100] [spec100_2]
        false = .ok (some m) ∧
      (ParentmassMatch.mk 1).compute_scores_parallel [spec100_2] [spec100]
        false = .ok (some m2) ∧
      matWF m [spec100].length [spec100_2].length ∧
      matWF m2 [spec100_2].length [spec100].length ∧
      ∀ i j : Nat, matGet m2 j i = matGet m i j :=
  ⟨(C5_commutativity_and_transpose (ParentmassMatch.mk 1)).1 spec100 spec100_2,
   (C5_commutativity_and_transpose (ParentmassMatch.mk 1)).2.2 [spec100]
     [spec100_2] (by simp [spec100, Spectrum.get])
     (by simp [spec100_2, Spectrum.get])⟩

/-- C6: on fully-defined inputs the general-mode batch matrix has exactly the
shape (len reference, len query), including when either length is zero; no
error is raised in the degenerate case. -/
theorem C6_shape_invariant (self : ParentmassMatch)
    (reference query : List Spectrum)
    (h1 : ∀ s ∈ reference, s.get "parent_mass" ≠ none)
    (h2 : ∀ s ∈ query, s.get "parent_mass" ≠ none) :
    ∃ m : Mat, self.compute_scores_parallel reference query false =
      .ok (some m) ∧
      m.length = reference.length ∧ ∀ row ∈ m, row.length = query.length := by
  obtain ⟨pmr, hpmr, hlenr, -⟩ := collect_parentmasses_ok h1
  obtain ⟨pmq, hpmq, hlenq, -⟩ := collect_parentmasses_ok h2
  refine ⟨parentmass_scores pmr pmq self.tolerance, ?_, ?_, ?_⟩
  · rw [compute_scores_parallel_ok hpmr hpmq false]
    rfl
  · rw [(parentmass_scores_WF pmr pmq self.tolerance).1, hlenr]
  · intro row hrow
    rw [(parentmass_scores_WF pmr pmq self.tolerance).2 row hrow, hlenq]

/-- C6 witness: an empty reference against a two-spectrum query returns an
empty matrix of shape (0, 2) and no error. -/
theorem C6_shape_invariant_witness :
    ((∀ s ∈ ([] : List Spectrum), s.get "parent_mass" ≠ none) ∧
      (∀ s ∈ [spec100, spec100_2], s.get "parent_mass" ≠ none)) ∧
    ∃ m : Mat, (ParentmassMatch.mk 1).compute_scores_parallel []
        [spec100, spec100_2] false = .ok (some m) ∧
      m.length = ([] : List Spectrum).length ∧
      ∀ row ∈ m, row.length = [spec100, spec100_2].length :=
  ⟨⟨by simp, by simp [spec100, spec100_2, Spectrum.get]⟩,
   C6_shape_invariant (ParentmassMatch.mk 1) [] [spec100, spec100_2]
     (by simp) (by simp [spec100, spec100_2, Spectrum.get])⟩

/-- C7: the single-pair entry point returns exactly the inclusive tolerance
predicate on the two parent masses, and agrees with entry (0, 0) of the batch
form applied to the corresponding singleton collections. -/
theorem C7_single_pair_agrees_with_batch (self : ParentmassMatch)
    (reference query : Spectrum) (pr pq : ℚ)
    (h1 : reference.get "parent_mass" = some pr)
    (h2 : query.get "parent_mass" = some pq) :
    self.compute_scores reference query =
      .ok (decide (|pr - pq| ≤ self.tolerance)) ∧
    self.compute_scores_parallel [reference] [query] false =
      .ok (some [[decide (|pr - pq| ≤ self.tolerance)]]) := by
  constructor
  · unfold ParentmassMatch.compute_scores
    rw [h1, h2]
  · have hcr : collect_parentmasses [reference] = .ok [pr] := by
      simp [collect_parentmasses, h1, Except.map]
    have hcq : collect_parentmasses [query] = .ok [pq] := by
      simp [collect_parentmasses, h2, Except.map]
    rw [compute_scores_parallel_ok hcr hcq false]
    rfl

/-- C7 witness: concrete spectra with parent masses 100 and 100.2. -/
theorem C7_single_pair_agrees_with_batch_witness :
    (spec100.get "parent_mass" = some 100 ∧
      spec100_2.get "parent_mass" = some (100 + 2/10)) ∧
    ((ParentmassMatch.mk 1).compute_scores spec100 spec100_2 =
      .ok (decide (|(100 : ℚ) - (100 + 2/10)| ≤ (ParentmassMatch.mk 1).tolerance)) ∧
    (ParentmassMatch.mk 1).compute_scores_parallel [spec100] [spec100_2] false =
      .ok (some [[decide (|(100 : ℚ) - (100 + 2/10)| ≤ (ParentmassMatch.mk 1).tolerance)]])) :=
  ⟨⟨rfl, rfl⟩,
   C7_single_pair_agrees_with_batch (ParentmassMatch.mk 1) spec100 spec100_2
     100 (100 + 2/10) rfl rfl⟩

/-- C8 counterexample: a batch failing because of the reference side and a
batch failing because of the query side produce the very same error value,
the constant string of the assert, so the raised error identifies neither the
failing side nor the failing item. -/
theorem C8_counterexample :
    (ParentmassMatch.mk 1).compute_scores_parallel [specBad] [spec100] false =
      (ParentmassMatch.mk 1).compute_scores_parallel [spec100] [specBad] false ∧
    (ParentmassMatch.mk 1).compute_scores_parallel [specBad] [spec100] false =
      .error "Missing parent mass." := by
  constructor
  · with_unfolding_all rfl
  · with_unfolding_all rfl

/-- C8 amended: when a batch aborts because a spectrum lacks the parent-mass
attribute, the error carries only the fixed message of the assert, which does
not identify the side (reference or query) or the item that failed. -/
theorem C8_constant_error_message (self : ParentmassMatch)
    (reference query : List Spectrum) (sym : Bool) (e : String)
    (h : self.compute_scores_parallel reference query sym = .error e) :
    e = "Missing parent mass." := by
  unfold ParentmassMatch.compute_scores_parallel at h
  cases hr : collect_parentmasses reference with
  | error e2 =>
    rw [hr] at h
    have he : e2 = e := Except.error.inj h
    rw [← he]
    exact collect_parentmasses_error_eq hr
  | ok refs =>
    rw [hr] at h
    cases hq : collect_parentmasses query with
    | error e2 =>
      rw [hq] at h
      have he : e2 = e := Except.error.inj h
      rw [← he]
      exact collect_parentmasses_error_eq hq
    | ok qs =>
      rw [hq] at h
      cases sym with
      | true => exact absurd h (by simp)
      | false => exact absurd h (by simp)

/-- C8 amended witness: a concrete aborting batch whose error message is the
constant assert string. -/
theorem C8_constant_error_message_witness :
    (ParentmassMatch.mk 1).compute_scores_parallel [specBad] [spec100] false =
      .error "Missing parent mass." ∧
    "Missing parent mass." = "Missing parent mass." :=
  ⟨by with_unfolding_all rfl,
   C8_constant_error_message (ParentmassMatch.mk 1) [specBad] [spec100] false
     "Missing parent mass." (by with_unfolding_all rfl)⟩

/-- C9 counterexample: with an empty reference and a one-element query the
symmetric kernel iterates over no reference row, performs no access at all and
completes in bounds, even though len(query) > len(reference); the claimed
equivalence of in-bounds execution with len(query) ≤ len(reference) fails. -/
theorem C9_counterexample :
    (parentmass_scores_symmetric ([] : List ℚ) [5] 1).isSome = true ∧
    ¬([(5 : ℚ)].length ≤ ([] : List ℚ).length) := by
  constructor
  · with_unfolding_all rfl
  · decide

/-- C9 amended: every index used by the symmetric kernel stays in bounds, so
the kernel completes, iff len(query) ≤ len(reference) or the reference is
empty (then the outer loop never runs and nothing is accessed); in particular
under the intended precondition len(reference) = len(query) all accesses are
in bounds, and whenever 0 < len(reference) < len(query) the mirrored write
scores[j, i] reaches row index len(reference) and goes out of bounds. -/
theorem C9_symmetric_kernel_bounds (refs qs : List ℚ) (t : ℚ) :
    (parentmass_scores_symmetric refs qs t).isSome ↔
      (qs.length ≤ refs.length ∨ refs.length = 0) := by
  constructor
  · intro h
    by_contra hc
    push_neg at hc
    rw [parentmass_scores_symmetric_eq_none t (by omega) (by omega)] at h
    simp at h
  · intro h
    rcases h with h | h
    · obtain ⟨m, hm, -, -⟩ := parentmass_scores_symmetric_eq_some refs qs t h
      rw [hm]
      rfl
    · have hnil : refs = [] := List.length_eq_zero.mp h
      subst hnil
      rfl

/-- C10: the constructor stores any tolerance, negative ones included, without
validation; with a strictly negative tolerance every single-pair comparison
that produces a value produces false, a spectrum compared against itself
included, and every in-bounds entry of the batch kernel matrix is false. -/
theorem C10_negative_tolerance_all_false (t : ℚ) (ht : t < 0) :
    (ParentmassMatch.mk t).tolerance = t ∧
    (∀ a b : Spectrum, ∀ v : Bool,
      (ParentmassMatch.mk t).compute_scores a b = .ok v → v = false) ∧
    ∀ refs qs : List ℚ, ∀ i j : Nat, i < refs.length → j < qs.length →
      matGet (parentmass_scores refs qs t) i j = some false := by
  refine ⟨rfl, ?_, ?_⟩
  · intro a b v hv
    unfold ParentmassMatch.compute_scores at hv
    cases ha : a.get "parent_mass" with
    | none => simp [ha] at hv
    | some pr =>
      cases hb : b.get "parent_mass" with
      | none => simp [ha, hb] at hv
      | some pq =>
        rw [ha, hb] at hv
        have hv2 : decide (|pr - pq| ≤ t) = v := Except.ok.inj hv
        rw [← hv2]
        apply decide_eq_false
        intro hle
        have habs := abs_nonneg (pr - pq)
        linarith
  · intro refs qs i j hi hj
    rw [matGet_parentmass_scores_of_lt hi hj]
    have hnot : ¬(|refs.getD i 0 - qs.getD j 0| ≤ t) := by
      intro hle
      have habs := abs_nonneg (refs.getD i 0 - qs.getD j 0)
      linarith
    rw [decide_eq_false hnot]

/-- C10 witness: tolerance -1. -/
theorem C10_negative_tolerance_all_false_witness :
    ((-1 : ℚ) < 0) ∧
    ((ParentmassMatch.mk (-1)).tolerance = -1 ∧
    (∀ a b : Spectrum, ∀ v : Bool,
      (ParentmassMatch.mk (-1)).compute_scores a b = .ok v → v = false) ∧
    ∀ refs qs : List ℚ, ∀ i j : Nat, i < refs.length → j < qs.length →
      matGet (parentmass_scores refs qs (-1)) i j = some false) :=
  ⟨by decide, C10_negative_tolerance_all_false (-1) (by decide)⟩
